import Mathlib

/-!
Verification of the gitx-tauri frontend logic.

This file embeds, as executable Lean definitions, the diff-view hunk
extraction and line numbering (DiffView renderDiff and its per-hunk
closures), the stage/unstage/discard hunk handlers of StageView, the
commit-history request logic of CommitHistory loadAllCommits, the graph
line stroke color of the commit-graph SVG, and the recent-repository
list maintenance of the Launcher. Theorems about these definitions
settle the frozen claims about the program.
-/

namespace GitxTauri

/-! ## String utilities modelling the JavaScript primitives used by the source -/

/-- Model of the JavaScript string split on a single-character
separator, as used by renderDiff (splitting the diff on newline) and by
addToRecentRepos (splitting the path on slash): every separator
character ends a segment, and segments may be empty. The empty input
yields one empty segment, as in JavaScript. -/
def splitChar (sep : Char) : List Char → List (List Char)
  | [] => [[]]
  | c :: t =>
    let r := splitChar sep t
    if c = sep then [] :: r
    else
      match r with
      | [] => [[c]]
      | h :: t2 => (c :: h) :: t2

/-- The line list of a diff text: diff.split on newline in the source. -/
def diffLines (diff : String) : List String :=
  (splitChar '\n' diff.data).map (fun cs => String.mk cs)

/-- Model of the JavaScript join with a newline separator on an array of
lines, as used when the hunk body lines are joined before being passed
to the engine. -/
def joinLines : List String → String
  | [] => ""
  | [l] => l
  | l :: l2 :: rest => l ++ "\n" ++ joinLines (l2 :: rest)

/-- Model of line.startsWith applied to the hunk marker, a two-character
at-sign pair: true exactly when the first two characters are at-signs. -/
def isMarkerChars : List Char → Bool
  | '@' :: '@' :: _ => true
  | _ => false

/-- A line is a hunk marker line when it starts with the two-character
at-sign marker. -/
def isMarker (l : String) : Bool := isMarkerChars l.data

/-- Model of line.startsWith applied to the plus sign. -/
def startsPlus (l : String) : Bool :=
  match l.data with
  | '+' :: _ => true
  | _ => false

/-- Model of line.startsWith applied to the minus sign. -/
def startsMinus (l : String) : Bool :=
  match l.data with
  | '-' :: _ => true
  | _ => false

/-- Index of the first element satisfying p, as the for-loops of the
source compute it by scanning indices upward and breaking at the first
hit; none when no element satisfies p. -/
def findFirstIdx (p : α → Bool) : List α → Option Nat
  | [] => none
  | a :: t => if p a then some 0 else (findFirstIdx p t).map (· + 1)

/-! ## DiffView: renderDiff and the per-hunk closures -/

/-- The startIdx computed by renderDiff: the index of the first line
starting with the hunk marker; the variable stays at its initial value
zero when no such line exists. -/
def startIdxOf (lines : List String) : Nat :=
  (findFirstIdx isMarker lines).getD 0

/-- The endIdx computed inside handleStageHunk and handleDiscardHunk:
scanning from index start, the first index holding a marker line; when
the loop finds none, nextHunkIdx stays negative and the code uses
lines.length instead. -/
def nextMarkerFrom (lines : List String) (start : Nat) : Nat :=
  match findFirstIdx isMarker (lines.drop start) with
  | some k => start + k
  | none => lines.length

/-- The hunkHeader argument built by the per-hunk closures of DiffView:
the line at index startIdx + thisHunkIdx. -/
def hunkHeaderFor (lines : List String) (startIdx thisHunkIdx : Nat) : String :=
  lines.getD (startIdx + thisHunkIdx) ("")

/-- The hunkLines argument built by the per-hunk closures of DiffView:
the lines strictly between startIdx + thisHunkIdx and the next marker
index (or the end of the list), joined with newline. -/
def hunkLinesFor (lines : List String) (startIdx thisHunkIdx : Nat) : String :=
  let s1 := startIdx + thisHunkIdx + 1
  let e := nextMarkerFrom lines s1
  joinLines ((lines.drop s1).take (e - s1))

/-- The hunkHeader passed to onStage or onDiscard for the hunk at
position thisHunkIdx of the rendered slice, computed from the raw diff
text as renderDiff does. -/
def hunkHeaderArg (diff : String) (thisHunkIdx : Nat) : String :=
  let lines := diffLines diff
  hunkHeaderFor lines (startIdxOf lines) thisHunkIdx

/-- The hunkLines passed to onStage or onDiscard for the hunk at
position thisHunkIdx of the rendered slice, computed from the raw diff
text as renderDiff does. -/
def hunkLinesArg (diff : String) (thisHunkIdx : Nat) : String :=
  let lines := diffLines diff
  hunkLinesFor lines (startIdxOf lines) thisHunkIdx

/-- The value of a decimal digit character. -/
def digitVal (c : Char) : Nat := c.toNat - ('0').toNat

/-- parseInt applied to a captured run of decimal digits. -/
def digitsVal (ds : List Char) : Nat :=
  ds.foldl (fun n c => n * 10 + digitVal c) 0

/-- Attempt to match the hunk-header regular expression of renderDiff at
the head of the character list: two at-signs, space, minus, a captured
digit run, an optional comma, an uncaptured digit run, space, plus, a
captured digit run, an optional comma, an uncaptured digit run, space,
two at-signs. The greedy digit runs and the optional commas are
deterministic here because a digit run is maximal and a declined comma
can never be matched by the following digit-or-space position. Returns
the two captured start fields. -/
def matchHeaderAt : List Char → Option (Nat × Nat)
  | '@' :: '@' :: ' ' :: '-' :: r0 =>
    let d1 := r0.takeWhile (fun c => c.isDigit)
    if d1.isEmpty then none
    else
      let r1 := r0.dropWhile (fun c => c.isDigit)
      let r2 := match r1 with
        | ',' :: t => t
        | _ => r1
      let r3 := r2.dropWhile (fun c => c.isDigit)
      match r3 with
      | ' ' :: '+' :: r4 =>
        let d2 := r4.takeWhile (fun c => c.isDigit)
        if d2.isEmpty then none
        else
          let r5 := r4.dropWhile (fun c => c.isDigit)
          let r6 := match r5 with
            | ',' :: t => t
            | _ => r5
          let r7 := r6.dropWhile (fun c => c.isDigit)
          match r7 with
          | ' ' :: '@' :: '@' :: _ => some (digitsVal d1, digitsVal d2)
          | _ => none
      | _ => none
  | _ => none

/-- Leftmost search for the hunk-header regular expression, as the
JavaScript match method performs it: try each start position from the
left and return the first successful match. -/
def regexFindAux : List Char → Option (Nat × Nat)
  | [] => none
  | c :: t =>
    match matchHeaderAt (c :: t) with
    | some r => some r
    | none => regexFindAux t

/-- The two captured start fields of the hunk-header match on a line, or
none when the line does not match, mirroring line.match with the
hunk-header regular expression followed by parseInt on the captures. -/
def hunkHeaderMatch (line : String) : Option (Nat × Nat) :=
  regexFindAux line.data

/-- One rendered diff row: the line text, whether it is a hunk marker
row, and the displayed old and new line numbers (none models the empty
number cell). -/
structure DiffRow where
  text : String
  isHunk : Bool
  oldNum : Option Nat
  newNum : Option Nat
deriving DecidableEq, Repr

/-- One step of the renderDiff map over the sliced lines: a marker line
resets the counters from the matched header start fields (or leaves
them unchanged when the regular expression does not match) and shows no
numbers; a plus line shows and post-increments only the new counter; a
minus line shows and post-increments only the old counter; any other
line shows and post-increments both. -/
def stepRow (st : Nat × Nat) (line : String) : DiffRow × (Nat × Nat) :=
  if isMarker line then
    match hunkHeaderMatch line with
    | some ab => (⟨line, true, none, none⟩, ab)
    | none => (⟨line, true, none, none⟩, st)
  else if startsPlus line then
    (⟨line, false, none, some st.2⟩, (st.1, st.2 + 1))
  else if startsMinus line then
    (⟨line, false, some st.1, none⟩, (st.1 + 1, st.2))
  else
    (⟨line, false, some st.1, some st.2⟩, (st.1 + 1, st.2 + 1))

/-- The rendered rows for a list of lines, threading the old and new
line counters through stepRow as renderDiff does. -/
def renderRows (st : Nat × Nat) : List String → List DiffRow
  | [] => []
  | l :: rest => (stepRow st l).1 :: renderRows (stepRow st l).2 rest

/-- The sliced line sequence renderDiff maps over: the lines from
startIdx onward. -/
def processedLines (diff : String) : List String :=
  let lines := diffLines diff
  lines.drop (startIdxOf lines)

/-- renderDiff: the empty diff text renders nothing (the falsy guard);
otherwise the lines from startIdx onward are rendered with both
counters starting at zero. -/
def renderDiff (diff : String) : List DiffRow :=
  if diff = ("") then []
  else renderRows (0, 0) (processedLines diff)

/-- Modelled from the spec and claim wording, for comparison with
renderRows: the numbering discipline the claim describes for a hunk
body once the counters have been set to the header start fields a and
b. An addition line is numbered with and increments only the new
counter, a deletion line with and increments only the old counter, and
a context line with and increments both. -/
def specNumbering (a b : Nat) : List String → List DiffRow
  | [] => []
  | l :: rest =>
    if startsPlus l then ⟨l, false, none, some b⟩ :: specNumbering a (b + 1) rest
    else if startsMinus l then ⟨l, false, some a, none⟩ :: specNumbering (a + 1) b rest
    else ⟨l, false, some a, some b⟩ :: specNumbering (a + 1) (b + 1) rest

/-! ## StageView: hunk action handlers -/

/-- The three hunk operations the engine exposes. -/
inductive HunkOp where
  | stage
  | unstage
  | discard
deriving DecidableEq, Repr

/-- The caller-visible effects of a hunk action handler: an engine
invocation carrying its arguments, an error dialog report, a status
reload, or a diff reload for a file. -/
inductive Effect where
  | engineInvoke (op : HunkOp) (path filePath fullDiff hunkHeader hunkLines : String)
  | reportError (op : HunkOp)
  | loadStatus
  | loadDiff (filePath : String) (staged : Bool)
deriving DecidableEq, Repr

/-- JavaScript falsiness of an optional string: undefined, null and the
empty string are falsy. -/
def strFalsy : Option String → Bool
  | none => true
  | some s => s == ("")

/-- handleStageHunk of StageView: a falsy selected file, header or body
returns with no effect at all; otherwise the engine is invoked once
(unstage_hunk when the selection is staged, stage_hunk otherwise), and
on success the status and the diff of the selected file are reloaded
while on failure an error dialog is shown. engineOk abstracts whether
the awaited engine invocation resolves or rejects. -/
def handleStageHunk (repoPath : String) (selectedFile : Option String)
    (selectedStaged : Bool) (diff : String)
    (hunkHeader hunkLines : Option String) (engineOk : Bool) : List Effect :=
  if strFalsy selectedFile || strFalsy hunkHeader || strFalsy hunkLines then []
  else
    let f := selectedFile.getD ("")
    let hd := hunkHeader.getD ("")
    let bd := hunkLines.getD ("")
    let op := if selectedStaged then HunkOp.unstage else HunkOp.stage
    if engineOk then
      [Effect.engineInvoke op repoPath f diff hd bd, Effect.loadStatus,
        Effect.loadDiff f selectedStaged]
    else
      [Effect.engineInvoke op repoPath f diff hd bd, Effect.reportError op]

/-- handleDiscardHunk of StageView: the same falsy guard, then one
discard_hunk engine invocation; on success the status and the diff of
the selected file are reloaded, on failure an error dialog is shown. -/
def handleDiscardHunk (repoPath : String) (selectedFile : Option String)
    (selectedStaged : Bool) (diff : String)
    (hunkHeader hunkLines : Option String) (engineOk : Bool) : List Effect :=
  if strFalsy selectedFile || strFalsy hunkHeader || strFalsy hunkLines then []
  else
    let f := selectedFile.getD ("")
    let hd := hunkHeader.getD ("")
    let bd := hunkLines.getD ("")
    if engineOk then
      [Effect.engineInvoke HunkOp.discard repoPath f diff hd bd, Effect.loadStatus,
        Effect.loadDiff f selectedStaged]
    else
      [Effect.engineInvoke HunkOp.discard repoPath f diff hd bd,
        Effect.reportError HunkOp.discard]

/-- Whether an effect is an engine invocation. -/
def isEngineCall : Effect → Bool
  | Effect.engineInvoke .. => true
  | _ => false

/-- Whether an effect is an error report. -/
def isErrorReport : Effect → Bool
  | Effect.reportError _ => true
  | _ => false

/-! ## CommitHistory: commit list requests and graph colors -/

/-- One connector segment of the commit graph, as the GraphLine
interface declares it. -/
structure GraphLine where
  upper : Bool
  fromLane : Nat
  toLane : Nat
  color : Nat
deriving DecidableEq, Repr

/-- A commit as the GitCommit interface declares it. -/
structure GitCommit where
  id : String
  message : String
  author : String
  email : String
  timestamp : String
  parents : List String
  branches : Option (List String)
  tags : Option (List String)
  lane : Nat
  lines : List GraphLine
deriving DecidableEq, Repr

/-- One get_commits request with its arguments as loadAllCommits builds
them. -/
structure CommitsRequest where
  path : String
  limit : Nat
  localOnly : Bool
  branchName : Option String
deriving DecidableEq, Repr

/-- The three commit lists loadAllCommits stores. -/
structure CommitsState where
  All : List GitCommit
  Local : List GitCommit
  Current : List GitCommit
deriving DecidableEq, Repr

/-- JavaScript truthiness of the optional currentBranch prop: undefined
and the empty string are falsy; a nonempty name is truthy. -/
def truthyStr : Option String → Option String
  | none => none
  | some s => if s == ("") then none else some s

/-- The sequence of get_commits requests loadAllCommits issues: the
all-branches request, the local-only request, and, only when the
currentBranch prop is truthy, the single-branch request for it. -/
def commitsRequests (path : String) (currentBranch : Option String) :
    List CommitsRequest :=
  [⟨path, 10000, false, none⟩, ⟨path, 10000, true, none⟩] ++
    (match truthyStr currentBranch with
     | some b => [⟨path, 10000, false, some b⟩]
     | none => [])

/-- loadAllCommits of CommitHistory, with the engine abstracted as a
function from a request to a commit list: the All and Local lists come
from the engine; the Current list comes from the engine only when the
currentBranch prop is truthy and is otherwise the already-resolved
empty list. -/
def loadAllCommits (eng : CommitsRequest → List GitCommit) (path : String)
    (currentBranch : Option String) : CommitsState :=
  { All := eng ⟨path, 10000, false, none⟩
    Local := eng ⟨path, 10000, true, none⟩
    Current :=
      match truthyStr currentBranch with
      | some b => eng ⟨path, 10000, false, some b⟩
      | none => [] }

/-- The hue of a graph line as the SVG rendering computes it: the color
index times sixty, modulo three hundred sixty. -/
def lineHue (l : GraphLine) : Nat := (l.color * 60) % 360

/-- The full stroke color string of a graph line in the SVG. -/
def lineStroke (l : GraphLine) : String :=
  ("hsl(") ++ toString (lineHue l) ++ (", 70%, 60%)")

/-! ## Launcher: recent repositories -/

/-- A recent-repository record as the RecentRepo interface declares
it. -/
structure RecentRepo where
  path : String
  name : String
  lastOpened : String
deriving DecidableEq, Repr

/-- The display name derived from a path in addToRecentRepos: the last
segment of the slash-split path, or the whole path when that segment is
falsy (empty). -/
def repoNameOf (path : String) : String :=
  let last := ((splitChar '/' path.data).map (fun cs => String.mk cs)).getLastD ("")
  if last == ("") then path else last

/-- addToRecentRepos of the Launcher: build the new record, prepend it
to the previous list with every record of the same path filtered out,
and keep at most the first ten records. now stands for the current
timestamp string. -/
def addToRecentRepos (now : String) (recent : List RecentRepo)
    (path : String) : List RecentRepo :=
  let newRepo : RecentRepo := ⟨path, repoNameOf path, now⟩
  (newRepo :: recent.filter (fun r => r.path != path)).take 10

/-- deleteRecentRepo of the Launcher: remove every record with the given
path. -/
def deleteRecentRepo (recent : List RecentRepo) (path : String) :
    List RecentRepo :=
  recent.filter (fun r => r.path != path)

/-! ## Helper lemmas about findFirstIdx -/

theorem findFirstIdx_some_take {α : Type} {p : α → Bool} :
    ∀ {l : List α} {k : Nat}, findFirstIdx p l = some k →
      l.take k = l.takeWhile (fun x => !(p x)) := by
  intro l
  induction l with
  | nil => intro k h; simp [findFirstIdx] at h
  | cons a t ih =>
    intro k h
    by_cases hpa : p a = true
    · simp [findFirstIdx, hpa] at h
      subst h
      simp [List.takeWhile_cons, hpa]
    · rw [Bool.not_eq_true] at hpa
      simp [findFirstIdx, hpa] at h
      obtain ⟨k0, hk0, hk⟩ := h
      subst hk
      simp [List.takeWhile_cons, hpa, ih hk0]

theorem findFirstIdx_none_takeWhile {α : Type} {p : α → Bool} :
    ∀ {l : List α}, findFirstIdx p l = none →
      l.takeWhile (fun x => !(p x)) = l := by
  intro l
  induction l with
  | nil => intro _; rfl
  | cons a t ih =>
    intro h
    by_cases hpa : p a = true
    · simp [findFirstIdx, hpa] at h
    · rw [Bool.not_eq_true] at hpa
      simp [findFirstIdx, hpa] at h
      simp [List.takeWhile_cons, hpa, ih h]

theorem findFirstIdx_some_drop {α : Type} {p : α → Bool} :
    ∀ {l : List α} {k : Nat}, findFirstIdx p l = some k →
      l.drop k = l.dropWhile (fun x => !(p x)) := by
  intro l
  induction l with
  | nil => intro k h; simp [findFirstIdx] at h
  | cons a t ih =>
    intro k h
    by_cases hpa : p a = true
    · simp [findFirstIdx, hpa] at h
      subst h
      simp [List.dropWhile_cons, hpa]
    · rw [Bool.not_eq_true] at hpa
      simp [findFirstIdx, hpa] at h
      obtain ⟨k0, hk0, hk⟩ := h
      subst hk
      simp [List.dropWhile_cons, hpa, ih hk0]

theorem exists_findFirstIdx_le {α : Type} {p : α → Bool} :
    ∀ (l : List α) (j : Nat) (hj : j < l.length), p (l.get ⟨j, hj⟩) = true →
      ∃ i, findFirstIdx p l = some i ∧ i ≤ j := by
  intro l
  induction l with
  | nil => intro j hj; simp at hj
  | cons a t ih =>
    intro j hj hp
    by_cases hpa : p a = true
    · exact ⟨0, by simp [findFirstIdx, hpa], Nat.zero_le j⟩
    · rw [Bool.not_eq_true] at hpa
      match j with
      | 0 => simp [List.get] at hp; rw [hp] at hpa; cases hpa
      | j0 + 1 =>
        have hj0 : j0 < t.length := by simpa using hj
        obtain ⟨i, hi, hle⟩ := ih j0 hj0 (by simpa using hp)
        exact ⟨i + 1, by simp [findFirstIdx, hpa, hi], by omega⟩

theorem findFirstIdx_get {α : Type} {p : α → Bool} :
    ∀ {l : List α} {i : Nat}, findFirstIdx p l = some i →
      ∃ hi : i < l.length, p (l.get ⟨i, hi⟩) = true := by
  intro l
  induction l with
  | nil => intro i h; simp [findFirstIdx] at h
  | cons a t ih =>
    intro i h
    by_cases hpa : p a = true
    · simp [findFirstIdx, hpa] at h
      subst h
      exact ⟨by simp, by simpa using hpa⟩
    · rw [Bool.not_eq_true] at hpa
      simp [findFirstIdx, hpa] at h
      obtain ⟨i0, hi0, hik⟩ := h
      obtain ⟨hlt, hp⟩ := ih hi0
      subst hik
      exact ⟨by simpa using Nat.succ_lt_succ hlt, by simpa using hp⟩

theorem findFirstIdx_eq_none {α : Type} {p : α → Bool} :
    ∀ {l : List α}, (∀ x ∈ l, p x = false) → findFirstIdx p l = none := by
  intro l
  induction l with
  | nil => intro _; rfl
  | cons a t ih =>
    intro h
    have hpa : p a = false := h a (by simp)
    simp [findFirstIdx, hpa, ih (fun x hx => h x (by simp [hx]))]

/-! ## Helper lemmas about list indexing and the renderer -/

theorem getD_eq_get {α : Type} :
    ∀ (l : List α) (j : Nat) (d : α) (h : j < l.length),
      l.getD j d = l.get ⟨j, h⟩ := by
  intro l
  induction l with
  | nil => intro j d h; simp at h
  | cons a t ih =>
    intro j d h
    cases j with
    | zero => rfl
    | succ j0 => simpa using ih j0 d (by simpa using h)

theorem drop_eq_get_cons {α : Type} :
    ∀ (l : List α) (n : Nat) (h : n < l.length),
      l.drop n = l.get ⟨n, h⟩ :: l.drop (n + 1) := by
  intro l
  induction l with
  | nil => intro n h; simp at h
  | cons a t ih =>
    intro n h
    cases n with
    | zero => rfl
    | succ n0 => exact ih n0 (by simpa using h)

theorem renderRows_length :
    ∀ (ls : List String) (st : Nat × Nat),
      (renderRows st ls).length = ls.length := by
  intro ls
  induction ls with
  | nil => intro st; rfl
  | cons l rest ih =>
    intro st
    simp [renderRows, ih]

theorem renderRows_no_marker_no_hunk :
    ∀ (ls : List String) (st : Nat × Nat), (∀ l ∈ ls, isMarker l = false) →
      (renderRows st ls).all (fun row => !(row.isHunk)) = true := by
  intro ls
  induction ls with
  | nil => intro st _; rfl
  | cons l rest ih =>
    intro st h
    have hl : isMarker l = false := h l (by simp)
    have hrest : ∀ x ∈ rest, isMarker x = false := fun x hx => h x (by simp [hx])
    have hhead : ((stepRow st l).1).isHunk = false := by
      unfold stepRow
      rw [hl]
      simp only [Bool.false_eq_true, if_false]
      split_ifs <;> rfl
    simp [renderRows, List.all_cons, hhead, ih _ hrest]

theorem renderRows_eq_specNumbering :
    ∀ (body : List String) (a b : Nat), (∀ l ∈ body, isMarker l = false) →
      renderRows (a, b) body = specNumbering a b body := by
  intro body
  induction body with
  | nil => intro a b _; rfl
  | cons l rest ih =>
    intro a b h
    have hl : isMarker l = false := h l (by simp)
    have hrest : ∀ x ∈ rest, isMarker x = false := fun x hx => h x (by simp [hx])
    by_cases hp : startsPlus l = true
    · simp [renderRows, stepRow, hl, hp, specNumbering, ih _ _ hrest]
    · rw [Bool.not_eq_true] at hp
      by_cases hmn : startsMinus l = true
      · simp [renderRows, stepRow, hl, hp, hmn, specNumbering, ih _ _ hrest]
      · rw [Bool.not_eq_true] at hmn
        simp [renderRows, stepRow, hl, hp, hmn, specNumbering, ih _ _ hrest]

/-! ## Claim theorems -/

/-- C1: for every diff text and every hunk marker line in it, at
position j of the split line list, the hunkHeader the per-hunk closure
passes to the engine callback is exactly that marker line, and the
hunkLines it passes is exactly the sequence of lines strictly after the
marker, up to but excluding the next marker line or to the end of the
text, joined with newline. The marker sits at offset j minus startIdx
of the rendered slice, which is the thisHunkIdx the closure captures. -/
theorem claim_C1_hunk_args (diff : String) (j : Nat)
    (hj : j < (diffLines diff).length)
    (hm : isMarker ((diffLines diff).get ⟨j, hj⟩) = true) :
    startIdxOf (diffLines diff) ≤ j ∧
    hunkHeaderArg diff (j - startIdxOf (diffLines diff)) =
      (diffLines diff).get ⟨j, hj⟩ ∧
    hunkLinesArg diff (j - startIdxOf (diffLines diff)) =
      joinLines (((diffLines diff).drop (j + 1)).takeWhile
        (fun l => !(isMarker l))) := by
  obtain ⟨i, hfi, hle⟩ := exists_findFirstIdx_le (diffLines diff) j hj hm
  have hstart : startIdxOf (diffLines diff) = i := by
    unfold startIdxOf
    rw [hfi]
    rfl
  have hidx :
      startIdxOf (diffLines diff) + (j - startIdxOf (diffLines diff)) = j := by
    rw [hstart]
    omega
  refine ⟨by rw [hstart]; exact hle, ?_, ?_⟩
  · show (diffLines diff).getD
        (startIdxOf (diffLines diff) + (j - startIdxOf (diffLines diff)))
        ("") = _
    rw [hidx]
    exact getD_eq_get (diffLines diff) j ("") hj
  · show joinLines (((diffLines diff).drop
        (startIdxOf (diffLines diff) + (j - startIdxOf (diffLines diff)) + 1)).take
        (nextMarkerFrom (diffLines diff)
            (startIdxOf (diffLines diff) + (j - startIdxOf (diffLines diff)) + 1) -
          (startIdxOf (diffLines diff) + (j - startIdxOf (diffLines diff)) + 1))) = _
    rw [hidx]
    unfold nextMarkerFrom
    cases hn : findFirstIdx isMarker ((diffLines diff).drop (j + 1)) with
    | some k =>
      have hk : (j + 1 + k) - (j + 1) = k := by omega
      rw [hk, findFirstIdx_some_take hn]
    | none =>
      rw [findFirstIdx_none_takeWhile hn]
      congr 1
      have hlen :
          (diffLines diff).length - (j + 1) =
            ((diffLines diff).drop (j + 1)).length := by
        rw [List.length_drop]
      rw [hlen, List.take_length]

/-- C1 witness: in a concrete two-hunk diff with a file-level header
line, the second marker line (index four) yields exactly that header
and exactly its body lines joined with newline. -/
theorem claim_C1_witness :
    startIdxOf (diffLines ("hdr\n@@ -1,2 +3,4 @@\nx\n+y\n@@ -9 +9 @@\n-z")) ≤ 4 ∧
    hunkHeaderArg ("hdr\n@@ -1,2 +3,4 @@\nx\n+y\n@@ -9 +9 @@\n-z")
        (4 - startIdxOf (diffLines ("hdr\n@@ -1,2 +3,4 @@\nx\n+y\n@@ -9 +9 @@\n-z"))) =
      (diffLines ("hdr\n@@ -1,2 +3,4 @@\nx\n+y\n@@ -9 +9 @@\n-z")).get ⟨4, by decide⟩ ∧
    hunkLinesArg ("hdr\n@@ -1,2 +3,4 @@\nx\n+y\n@@ -9 +9 @@\n-z")
        (4 - startIdxOf (diffLines ("hdr\n@@ -1,2 +3,4 @@\nx\n+y\n@@ -9 +9 @@\n-z"))) =
      joinLines (((diffLines ("hdr\n@@ -1,2 +3,4 @@\nx\n+y\n@@ -9 +9 @@\n-z")).drop
        (4 + 1)).takeWhile (fun l => !(isMarker l))) :=
  claim_C1_hunk_args ("hdr\n@@ -1,2 +3,4 @@\nx\n+y\n@@ -9 +9 @@\n-z") 4
    (by decide) (by decide)

/-- C2: for every diff text containing at least one marker line, the
rendered line sequence is exactly the split lines with the longest
marker-free prefix discarded: it is nonempty and begins at the first
marker line. -/
theorem claim_C2_skip_file_headers (diff : String)
    (h : ∃ l ∈ diffLines diff, isMarker l = true) :
    processedLines diff =
      (diffLines diff).dropWhile (fun l => !(isMarker l)) ∧
    processedLines diff ≠ [] ∧
    isMarker ((processedLines diff).headD ("")) = true := by
  obtain ⟨l, hl, hp⟩ := h
  obtain ⟨⟨j, hj⟩, hget⟩ := List.mem_iff_get.mp hl
  rw [← hget] at hp
  obtain ⟨i, hfi, _⟩ := exists_findFirstIdx_le (diffLines diff) j hj hp
  have hstart : startIdxOf (diffLines diff) = i := by
    unfold startIdxOf
    rw [hfi]
    rfl
  have hproc : processedLines diff = (diffLines diff).drop i := by
    show (diffLines diff).drop (startIdxOf (diffLines diff)) = _
    rw [hstart]
  obtain ⟨hi, hpi⟩ := findFirstIdx_get hfi
  have hcons :
      (diffLines diff).drop i =
        (diffLines diff).get ⟨i, hi⟩ :: (diffLines diff).drop (i + 1) :=
    drop_eq_get_cons (diffLines diff) i hi
  refine ⟨?_, ?_, ?_⟩
  · rw [hproc, findFirstIdx_some_drop hfi]
  · rw [hproc, hcons]
    exact List.cons_ne_nil _ _
  · rw [hproc, hcons]
    exact hpi

/-- C2 witness: a concrete diff with two file-level header lines renders
starting exactly at its marker line. -/
theorem claim_C2_witness :
    processedLines ("diff --git a\nindex 12\n@@ -1 +1 @@\n+x") =
      (diffLines ("diff --git a\nindex 12\n@@ -1 +1 @@\n+x")).dropWhile
        (fun l => !(isMarker l)) ∧
    processedLines ("diff --git a\nindex 12\n@@ -1 +1 @@\n+x") ≠ [] ∧
    isMarker ((processedLines
      ("diff --git a\nindex 12\n@@ -1 +1 @@\n+x")).headD ("")) = true :=
  claim_C2_skip_file_headers ("diff --git a\nindex 12\n@@ -1 +1 @@\n+x")
    (by decide)

/-- C7: whatever the incoming counter state, rendering a hunk header
whose regular-expression match captured the start fields a and b,
followed by its marker-free body, numbers the body exactly by the
claimed discipline: the old counter starts at a and the new counter at
b, a context line is numbered with and increments both, an addition
line only the new counter, a deletion line only the old counter. The
length fields of the header never enter: the output depends on the
header only through the two captured start fields. -/
theorem claim_C7_line_numbers (st : Nat × Nat) (header : String) (a b : Nat)
    (body : List String)
    (hp : hunkHeaderMatch header = some (a, b))
    (hm : isMarker header = true)
    (hb : ∀ l ∈ body, isMarker l = false) :
    renderRows st (header :: body) =
      ⟨header, true, none, none⟩ :: specNumbering a b body := by
  have hstep : renderRows st (header :: body) =
      (stepRow st header).1 :: renderRows (stepRow st header).2 body := rfl
  have hrow : stepRow st header = (⟨header, true, none, none⟩, (a, b)) := by
    unfold stepRow
    rw [hm, hp]
    rfl
  rw [hstep, hrow]
  exact congrArg _ (renderRows_eq_specNumbering body a b hb)

/-- C7 witness: the header with start fields three and seven and length
fields two and four numbers a context, an addition and a deletion line
from three and seven, ignoring the length fields. -/
theorem claim_C7_witness :
    renderRows (0, 0)
        (("@@ -3,2 +7,4 @@") :: [(" c"), ("+x"), ("-y")]) =
      ⟨("@@ -3,2 +7,4 @@"), true, none, none⟩ ::
        specNumbering 3 7 [(" c"), ("+x"), ("-y")] :=
  claim_C7_line_numbers (0, 0) ("@@ -3,2 +7,4 @@") 3 7
    [(" c"), ("+x"), ("-y")] (by decide) (by decide) (by decide)

/-- C8 counterexample: the one-line diff text without any marker line is
not treated as an empty diff: renderDiff still renders its line as a
plain context diff row, so the claim that no diff output is produced is
false at this input. -/
theorem claim_C8_counterexample :
    (diffLines ("foo")).all (fun l => !(isMarker l)) = true ∧
    renderDiff ("foo") = [⟨("foo"), false, some 0, some 0⟩] := by decide

/-- C8 amended: for a diff text without any marker line the parse never
crashes and yields no hunk rows, but the output is not empty: every
split line (none is discarded, since startIdx stays zero) is rendered
as a plain diff row; only the empty text renders nothing. -/
theorem claim_C8_no_marker_renders_plain (diff : String)
    (h : ∀ l ∈ diffLines diff, isMarker l = false) :
    (renderDiff diff).all (fun row => !(row.isHunk)) = true ∧
    (renderDiff diff).length =
      if diff = ("") then 0 else (diffLines diff).length := by
  unfold renderDiff
  by_cases hd : diff = ("")
  · simp [hd]
  · rw [if_neg hd, if_neg hd]
    have hstart : startIdxOf (diffLines diff) = 0 := by
      unfold startIdxOf
      rw [findFirstIdx_eq_none h]
      rfl
    have hproc : processedLines diff = diffLines diff := by
      show (diffLines diff).drop (startIdxOf (diffLines diff)) = _
      rw [hstart]
      exact List.drop_zero _
    rw [hproc]
    exact ⟨renderRows_no_marker_no_hunk _ _ h, renderRows_length _ _⟩

/-- C8 witness: a concrete marker-free text renders only plain rows, one
per line. -/
theorem claim_C8_witness :
    (renderDiff ("Binary files differ")).all (fun row => !(row.isHunk)) = true ∧
    (renderDiff ("Binary files differ")).length =
      if ("Binary files differ" : String) = ("") then 0
      else (diffLines ("Binary files differ")).length :=
  claim_C8_no_marker_renders_plain ("Binary files differ") (by decide)

/-- C9: for every GraphLine the rendered hue is the color index times
sixty modulo three hundred sixty, so any two color indices congruent
modulo six render the identical stroke color, the hue is sixty times
the color index modulo six, and every hue lies in the fixed six-element
palette. -/
theorem claim_C9_color_palette (l1 l2 : GraphLine) :
    (l1.color % 6 = l2.color % 6 → lineStroke l1 = lineStroke l2) ∧
    lineHue l1 = 60 * (l1.color % 6) ∧
    lineHue l1 ∈ [0, 60, 120, 180, 240, 300] := by
  have key : ∀ c : Nat, (c * 60) % 360 = 60 * (c % 6) := by
    intro c
    rw [Nat.mul_comm]
    have h6 : (360 : Nat) = 60 * 6 := by norm_num
    rw [h6]
    exact Nat.mul_mod_mul_left 60 c 6
  refine ⟨fun h => ?_, key l1.color, ?_⟩
  · unfold lineStroke lineHue
    rw [key, key, h]
  · unfold lineHue
    rw [key]
    have hlt : l1.color % 6 < 6 := Nat.mod_lt _ (by norm_num)
    interval_cases h : l1.color % 6 <;> simp

/-- C9 witness: the color indices one and seven are congruent modulo six
and render the identical stroke color. -/
theorem claim_C9_witness :
    lineStroke ⟨true, 0, 1, 1⟩ = lineStroke ⟨false, 2, 3, 7⟩ :=
  (claim_C9_color_palette ⟨true, 0, 1, 1⟩ ⟨false, 2, 3, 7⟩).1 (by decide)

/-- C10: when the previous recent-repository list has pairwise distinct
paths, adding a path yields a list of at most ten records with pairwise
distinct paths whose first record is the just-added one, the added path
occurs exactly once (an already-present path is moved to the front, not
duplicated), and deletion also preserves path distinctness. -/
theorem claim_C10_recent_repos (now : String) (recent : List RecentRepo)
    (path : String)
    (h : (recent.map (fun r => r.path)).Nodup) :
    (addToRecentRepos now recent path).length ≤ 10 ∧
    ((addToRecentRepos now recent path).map (fun r => r.path)).Nodup ∧
    (addToRecentRepos now recent path).head? =
      some ⟨path, repoNameOf path, now⟩ ∧
    ((addToRecentRepos now recent path).filter
      (fun r => r.path == path)).length = 1 ∧
    ((deleteRecentRepo recent path).map (fun r => r.path)).Nodup := by
  have hfsub : List.Sublist (recent.filter (fun r => r.path != path)) recent :=
    List.filter_sublist recent
  have hfnodup :
      ((recent.filter (fun r => r.path != path)).map (fun r => r.path)).Nodup :=
    (hfsub.map (fun r => r.path)).nodup h
  have hmem : ∀ r ∈ recent.filter (fun r => r.path != path), r.path ≠ path := by
    intro r hr
    have := (List.mem_filter.mp hr).2
    simpa using this
  have htake :
      addToRecentRepos now recent path =
        (⟨path, repoNameOf path, now⟩ : RecentRepo) ::
          (recent.filter (fun r => r.path != path)).take 9 := by
    unfold addToRecentRepos
    rw [List.take_succ_cons]
  refine ⟨?_, ?_, ?_, ?_, ?_⟩
  · unfold addToRecentRepos
    exact List.length_take_le 10 _
  · rw [htake]
    rw [List.map_cons, List.nodup_cons]
    constructor
    · intro hmemmap
      obtain ⟨r, hrmem, hrpath⟩ := List.mem_map.mp hmemmap
      exact hmem r (List.mem_of_mem_take hrmem) hrpath
    · exact ((List.take_sublist 9
        (recent.filter (fun r => r.path != path))).map
          (fun r => r.path)).nodup hfnodup
  · rw [htake]; rfl
  · rw [htake]
    have hrest :
        ((recent.filter (fun r => r.path != path)).take 9).filter
          (fun r => r.path == path) = [] := by
      rw [List.filter_eq_nil_iff]
      intro r hr
      simpa using hmem r (List.mem_of_mem_take hr)
    rw [List.filter_cons]
    simp [hrest]
  · exact ((List.filter_sublist recent).map (fun r => r.path)).nodup h

/-- C10 witness: adding an already-present path to a two-record list
moves it to the front without duplication and keeps the invariants. -/
theorem claim_C10_witness :
    (addToRecentRepos ("t9") [⟨("a"), ("a"), ("t1")⟩, ⟨("b"), ("b"), ("t2")⟩]
      ("b")).length ≤ 10 ∧
    ((addToRecentRepos ("t9") [⟨("a"), ("a"), ("t1")⟩, ⟨("b"), ("b"), ("t2")⟩]
      ("b")).map (fun r => r.path)).Nodup ∧
    (addToRecentRepos ("t9") [⟨("a"), ("a"), ("t1")⟩, ⟨("b"), ("b"), ("t2")⟩]
      ("b")).head? = some ⟨("b"), repoNameOf ("b"), ("t9")⟩ ∧
    ((addToRecentRepos ("t9") [⟨("a"), ("a"), ("t1")⟩, ⟨("b"), ("b"), ("t2")⟩]
      ("b")).filter (fun r => r.path == ("b"))).length = 1 ∧
    ((deleteRecentRepo [⟨("a"), ("a"), ("t1")⟩, ⟨("b"), ("b"), ("t2")⟩]
      ("b")).map (fun r => r.path)).Nodup :=
  claim_C10_recent_repos ("t9") [⟨("a"), ("a"), ("t1")⟩, ⟨("b"), ("b"), ("t2")⟩]
    ("b") (by decide)

/-- C3 counterexample: a stage action invoked with an empty hunk body
produces no effect at all — in particular no patch is applied, but no
failure is reported to the caller either: the handler returns silently,
so the claim that the failure is reported is false at this input. -/
theorem claim_C3_counterexample :
    handleStageHunk ("repo") (some ("file.txt")) false ("difftext")
        (some ("@@ -1 +1 @@")) (some ("")) true = ([] : List Effect) ∧
      Effect.reportError HunkOp.stage ∉
        handleStageHunk ("repo") (some ("file.txt")) false ("difftext")
          (some ("@@ -1 +1 @@")) (some ("")) true := by
  constructor
  · rfl
  · intro hmem
    simp [handleStageHunk, strFalsy] at hmem

/-- C3 amended: a hunk action (stage, unstage or discard) invoked with
an empty (falsy) hunk body is a silent no-op: the guard returns before
any engine invocation, so no patch is applied, but the failure is not
reported to the caller. -/
theorem claim_C3_empty_body_noop (repoPath : String) (selectedFile : Option String)
    (selectedStaged : Bool) (diff : String) (hunkHeader : Option String)
    (hunkLines : Option String) (engineOk : Bool)
    (h : strFalsy hunkLines = true) :
    handleStageHunk repoPath selectedFile selectedStaged diff hunkHeader
        hunkLines engineOk = [] ∧
      handleDiscardHunk repoPath selectedFile selectedStaged diff hunkHeader
        hunkLines engineOk = [] := by
  unfold handleStageHunk handleDiscardHunk
  rw [h]
  simp

/-- C3 witness: a discard action with an empty body on a valid selected
file is a silent no-op. -/
theorem claim_C3_witness :
    handleStageHunk ("r") (some ("f")) true ("d") (some ("@@ -2 +2 @@"))
        (some ("")) false = ([] : List Effect) ∧
      handleDiscardHunk ("r") (some ("f")) true ("d") (some ("@@ -2 +2 @@"))
        (some ("")) false = ([] : List Effect) :=
  claim_C3_empty_body_noop ("r") (some ("f")) true ("d")
    (some ("@@ -2 +2 @@")) (some ("")) false (by decide)

/-- C4: when the selected file, header and body are all non-falsy and
the engine invocation rejects, each hunk handler performs exactly one
engine invocation and exactly one error report — the error is surfaced
once and the engine call is never retried. -/
theorem claim_C4_failure_once (repoPath : String) (selectedFile : Option String)
    (selectedStaged : Bool) (diff : String)
    (hunkHeader hunkLines : Option String)
    (h1 : strFalsy selectedFile = false) (h2 : strFalsy hunkHeader = false)
    (h3 : strFalsy hunkLines = false) :
    ((handleStageHunk repoPath selectedFile selectedStaged diff hunkHeader
        hunkLines false).countP isEngineCall = 1 ∧
      (handleStageHunk repoPath selectedFile selectedStaged diff hunkHeader
        hunkLines false).countP isErrorReport = 1) ∧
    ((handleDiscardHunk repoPath selectedFile selectedStaged diff hunkHeader
        hunkLines false).countP isEngineCall = 1 ∧
      (handleDiscardHunk repoPath selectedFile selectedStaged diff hunkHeader
        hunkLines false).countP isErrorReport = 1) := by
  unfold handleStageHunk handleDiscardHunk
  rw [h1, h2, h3]
  cases selectedStaged <;>
    simp [List.countP_cons, isEngineCall, isErrorReport]

/-- C4 witness: a failing stage action on a concrete input invokes the
engine once and reports the error once. -/
theorem claim_C4_witness :
    ((handleStageHunk ("r") (some ("f")) false ("d") (some ("@@ -1 +1 @@"))
        (some ("+x")) false).countP isEngineCall = 1 ∧
      (handleStageHunk ("r") (some ("f")) false ("d") (some ("@@ -1 +1 @@"))
        (some ("+x")) false).countP isErrorReport = 1) ∧
    ((handleDiscardHunk ("r") (some ("f")) false ("d") (some ("@@ -1 +1 @@"))
        (some ("+x")) false).countP isEngineCall = 1 ∧
      (handleDiscardHunk ("r") (some ("f")) false ("d") (some ("@@ -1 +1 @@"))
        (some ("+x")) false).countP isErrorReport = 1) :=
  claim_C4_failure_once ("r") (some ("f")) false ("d") (some ("@@ -1 +1 @@"))
    (some ("+x")) (by decide) (by decide) (by decide)

/-- C5: when the selected file, header and body are all non-falsy and
the engine invocation succeeds, each hunk handler reloads the file
status and reloads the diff of the selected file in its selected
staged state. -/
theorem claim_C5_success_reloads (repoPath : String) (selectedFile : Option String)
    (selectedStaged : Bool) (diff : String)
    (hunkHeader hunkLines : Option String)
    (h1 : strFalsy selectedFile = false) (h2 : strFalsy hunkHeader = false)
    (h3 : strFalsy hunkLines = false) :
    (Effect.loadStatus ∈ handleStageHunk repoPath selectedFile selectedStaged
        diff hunkHeader hunkLines true ∧
      Effect.loadDiff (selectedFile.getD ("")) selectedStaged ∈
        handleStageHunk repoPath selectedFile selectedStaged diff hunkHeader
          hunkLines true) ∧
    (Effect.loadStatus ∈ handleDiscardHunk repoPath selectedFile selectedStaged
        diff hunkHeader hunkLines true ∧
      Effect.loadDiff (selectedFile.getD ("")) selectedStaged ∈
        handleDiscardHunk repoPath selectedFile selectedStaged diff hunkHeader
          hunkLines true) := by
  unfold handleStageHunk handleDiscardHunk
  rw [h1, h2, h3]
  cases selectedStaged <;> simp

/-- C5 witness: a successful unstage action on a concrete input reloads
the status and the diff of the selected file. -/
theorem claim_C5_witness :
    (Effect.loadStatus ∈ handleStageHunk ("r") (some ("f")) true ("d")
        (some ("@@ -1 +1 @@")) (some ("+x")) true ∧
      Effect.loadDiff ((some ("f")).getD ("")) true ∈
        handleStageHunk ("r") (some ("f")) true ("d") (some ("@@ -1 +1 @@"))
          (some ("+x")) true) ∧
    (Effect.loadStatus ∈ handleDiscardHunk ("r") (some ("f")) true ("d")
        (some ("@@ -1 +1 @@")) (some ("+x")) true ∧
      Effect.loadDiff ((some ("f")).getD ("")) true ∈
        handleDiscardHunk ("r") (some ("f")) true ("d") (some ("@@ -1 +1 @@"))
          (some ("+x")) true) :=
  claim_C5_success_reloads ("r") (some ("f")) true ("d") (some ("@@ -1 +1 @@"))
    (some ("+x")) (by decide) (by decide) (by decide)

/-- C6: every commit-history request of loadAllCommits carries the limit
ten thousand and exactly one of the three filter configurations
(all-branches, local-only, single-branch); the single-branch request
exists only when the currentBranch prop is truthy, and when it is not,
only the two branch-name-free requests are issued and the Current list
is the empty sequence regardless of the engine. -/
theorem claim_C6_commit_requests (path : String) (cb : Option String) :
    (∀ req ∈ commitsRequests path cb, req.limit = 10000) ∧
    (∀ req ∈ commitsRequests path cb,
      (req.localOnly = false ∧ req.branchName = none) ∨
      (req.localOnly = true ∧ req.branchName = none) ∨
      (∃ b, truthyStr cb = some b ∧ req = ⟨path, 10000, false, some b⟩)) ∧
    (truthyStr cb = none →
      commitsRequests path cb =
        [⟨path, 10000, false, none⟩, ⟨path, 10000, true, none⟩] ∧
      ∀ eng, (loadAllCommits eng path cb).Current = []) ∧
    (∀ b, truthyStr cb = some b →
      commitsRequests path cb =
        [⟨path, 10000, false, none⟩, ⟨path, 10000, true, none⟩,
          ⟨path, 10000, false, some b⟩]) := by
  refine ⟨?_, ?_, ?_, ?_⟩
  · intro req hreq
    unfold commitsRequests at hreq
    cases htc : truthyStr cb <;> rw [htc] at hreq <;>
      simp at hreq <;> rcases hreq with h | h <;>
        first
          | (subst h; rfl)
          | (rcases h with h | h <;> subst h <;> rfl)
  · intro req hreq
    unfold commitsRequests at hreq
    cases htc : truthyStr cb with
    | none =>
      rw [htc] at hreq
      simp at hreq
      rcases hreq with h | h <;> subst h <;> simp
    | some b =>
      rw [htc] at hreq
      simp at hreq
      rcases hreq with h | h | h <;> subst h <;> simp
  · intro htc
    constructor
    · unfold commitsRequests
      rw [htc]
      rfl
    · intro eng
      unfold loadAllCommits
      rw [htc]
  · intro b htc
    unfold commitsRequests
    rw [htc]
    rfl

/-- C6 witness: with a truthy current branch the three requests are
issued with limit ten thousand; with no current branch the Current list
is empty without an engine call. -/
theorem claim_C6_witness :
    commitsRequests ("p") (some ("main")) =
      [⟨("p"), 10000, false, none⟩, ⟨("p"), 10000, true, none⟩,
        ⟨("p"), 10000, false, some ("main")⟩] ∧
    (loadAllCommits (fun _ => []) ("p") none).Current = [] :=
  ⟨(claim_C6_commit_requests ("p") (some ("main"))).2.2.2 ("main") (by decide),
    ((claim_C6_commit_requests ("p") none).2.2.1 (by decide)).2 (fun _ => [])⟩

end GitxTauri
